import Mathlib

/-!
Verification of the Entity Overlay & Analytics Engine of `visualizer.py`.

The spaCy pipeline (`nlp`), `displacy` rendering, the python-docx document
writer and the PDF/DOCX text extractors are external collaborators; they
appear below as abstract function parameters.  Texts are modelled as
`List Char`; the Python slice `text[a:b]` is `pySlice`, `text[a:]` is
`List.drop`, and `str.strip()` is `pyStrip`.
-/

/-- An entity span as delivered by the recognition pipeline: character
offsets `ent.start_char`, `ent.end_char`, the label `ent.label_`, and the
number of tokens the span covers (`len(ent)`).  spaCy guarantees
`ent.text == text[ent.start_char:ent.end_char]`, so the span text is
recovered by `pySlice`. -/
structure EntitySpan where
  start_char : Nat
  end_char : Nat
  label_ : String
  numTokens : Nat
  deriving DecidableEq

/-- The features of a processed spaCy `Doc` that the routes consume: the
entity spans `doc.ents`, the token count `len(doc)`, and the token count of
each sentence (`[len(sent) for sent in doc.sents]`, in sentence order). -/
structure SpacyDoc where
  ents : List EntitySpan
  numTokens : Nat
  sentLens : List Nat
  deriving DecidableEq

/-- A run appended to the exported paragraph in `save_results`: either a
plain (unstyled) text run, or a styled run — bold, colored via
`ENTITY_COLORS.get(ent.label_, gray)` — carrying the entity's label. -/
inductive Run where
  | plain (text : List Char)
  | styled (text : List Char) (label_ : String)
  deriving DecidableEq

/-- The text carried by a run. -/
def Run.text : Run → List Char
  | .plain t => t
  | .styled t _ => t

/-- Python slice `text[a:b]` for natural indices. -/
def pySlice (t : List Char) (a b : Nat) : List Char :=
  (t.drop a).take (b - a)

/-- Concatenation of the texts of a run sequence. -/
def concatRuns (rs : List Run) : List Char :=
  (rs.map Run.text).flatten

/-- Python whitespace test used by `str.strip()` (ASCII range). -/
def pyIsSpace (c : Char) : Bool :=
  c = ' ' || c = '\t' || c = '\n' || c = '\r' || c = '\x0b' || c = '\x0c'

/-- Python `str.strip()`: remove leading and trailing whitespace. -/
def pyStrip (l : List Char) : List Char :=
  ((l.dropWhile pyIsSpace).reverse.dropWhile pyIsSpace).reverse

/-- The export loop of `save_results` (`visualizer.py` lines 138-151):
walk the entity list with a cursor `last_index`; for each entity whose
label is selected, emit the unstyled gap run (when non-empty), then the
styled entity run, and advance the cursor; after the loop emit the
remainder `text[last_index:]` when the cursor has not reached the end. -/
def saveRunsAux (text : List Char) (selected : List String) :
    List EntitySpan → Nat → List Run
  | [], last_index =>
      if last_index < text.length then [Run.plain (text.drop last_index)] else []
  | ent :: rest, last_index =>
      if ent.label_ ∈ selected then
        (if ent.start_char > last_index then
          [Run.plain (pySlice text last_index ent.start_char)]
        else []) ++
        Run.styled (pySlice text ent.start_char ent.end_char) ent.label_ ::
          saveRunsAux text selected rest ent.end_char
      else
        saveRunsAux text selected rest last_index

/-- The run sequence `save_results` appends to the exported paragraph,
starting from `last_index = 0`. -/
def saveRuns (text : List Char) (selected : List String)
    (ents : List EntitySpan) : List Run :=
  saveRunsAux text selected ents 0

/-- The precondition on a span list: starting from cursor `lo`, every span
is in bounds (`start_char < end_char ≤ len`), starts at or after the
cursor, and the spans are sorted and mutually non-overlapping. -/
def chainFrom (len : Nat) : Nat → List EntitySpan → Bool
  | _, [] => true
  | lo, ent :: rest =>
      decide (lo ≤ ent.start_char) && decide (ent.start_char < ent.end_char) &&
        decide (ent.end_char ≤ len) && chainFrom len ent.end_char rest

/-- One step of Python `Counter` construction: increment the count of a
key already present, or append it with count 1. -/
def bump : List (String × Nat) → String → List (String × Nat)
  | [], l => [(l, 1)]
  | (k, n) :: rest, l =>
      if k = l then (k, n + 1) :: rest else (k, n) :: bump rest l

/-- Python `Counter(ent.label_ for ent in doc.ents)` as a finite map from
labels to occurrence counts, built by a left fold over the labels. -/
def counter (ls : List String) : List (String × Nat) :=
  ls.foldl bump []

/-- Sum of the values of a label-count mapping. -/
def sumValues (d : List (String × Nat)) : Nat :=
  (d.map Prod.snd).sum

/-- The fields of the JSON object returned by the `/stats` route.  The two
Python float divisions are modelled exactly, over `ℚ`. -/
structure StatsReport where
  entity_count : Nat
  entity_distribution : List (String × Nat)
  token_count : Nat
  entity_density : ℚ
  sentence_lengths : List Nat
  avg_sentence_length : ℚ
  named_entity_length_distribution : List Nat
  deriving DecidableEq

/-- The statistics computed by the `stats` route (`visualizer.py` lines
164-191) from the processed document. -/
def statsOf (doc : SpacyDoc) : StatsReport :=
  let entity_counts := counter (doc.ents.map (·.label_))
  let total_entities := doc.ents.length
  let token_count := doc.numTokens
  let entity_density : ℚ :=
    if token_count > 0 then (total_entities : ℚ) / (token_count : ℚ) else 0
  let sentence_lengths := doc.sentLens
  let avg_sentence_length : ℚ :=
    if sentence_lengths.isEmpty then 0
    else (sentence_lengths.sum : ℚ) / (sentence_lengths.length : ℚ)
  let ne_length_distribution := doc.ents.map (·.numTokens)
  { entity_count := total_entities
    entity_distribution := entity_counts
    token_count := token_count
    entity_density := entity_density
    sentence_lengths := sentence_lengths
    avg_sentence_length := avg_sentence_length
    named_entity_length_distribution := ne_length_distribution }

/-- The response of the `/save` route: either the error JSON with its HTTP
status, or success — carrying the run sequence of the single document
written (the one `doc.save(file_path)` side effect) and the returned
`file_path`. -/
inductive SaveResult where
  | error (msg : String) (status : Nat)
  | ok (runs : List Run) (file_path : String)
  deriving DecidableEq

/-- The response of the `/stats` route: the error JSON with its HTTP
status, or the report fields. -/
inductive StatsResult where
  | error (msg : String) (status : Nat)
  | ok (report : StatsReport)
  deriving DecidableEq

/-- The response of the `/upload` route: the error JSON with its HTTP
status, or the extracted text. -/
inductive UploadResult where
  | error (msg : String) (status : Nat)
  | ok (text : List Char)
  deriving DecidableEq

/-- An uploaded file: its filename and its raw bytes. -/
structure UploadedFile where
  filename : List Char
  content : List Nat
  deriving DecidableEq

/-- The `/save` route (`visualizer.py` lines 122-155), parameterized by
the recognition pipeline `nlp`.  The submitted text is stripped; empty
text is rejected; otherwise the stripped text is processed and the export
run sequence is written to `"Results.docx"`. -/
def save_results (nlp : List Char → SpacyDoc) (text : List Char)
    (selected_entities : List String) : SaveResult :=
  let text := pyStrip text
  if text.isEmpty then SaveResult.error "No content to save" 400
  else
    let runs := saveRuns text selected_entities (nlp text).ents
    SaveResult.ok runs "Results.docx"

/-- The `/stats` route (`visualizer.py` lines 157-191), parameterized by
the recognition pipeline `nlp`. -/
def stats (nlp : List Char → SpacyDoc) (text : List Char) : StatsResult :=
  let text := pyStrip text
  if text.isEmpty then StatsResult.error "No text provided" 400
  else StatsResult.ok (statsOf (nlp text))

/-- The `/filter` route (`visualizer.py` lines 65-80), parameterized by
the recognition pipeline: it strips the submitted text, processes it, and
hands the resulting document and the selected labels to `displacy.render`
(external); we return that pair. -/
def filter_entities (nlp : List Char → SpacyDoc) (text : List Char)
    (selected_entities : List String) : SpacyDoc × List String :=
  let user_text := pyStrip text
  (nlp user_text, selected_entities)

/-- Python `str.lower()` on a filename (ASCII). -/
def lowerList (l : List Char) : List Char :=
  l.map Char.toLower

/-- Python `str.endswith(s)`. -/
def endsWithList (l s : List Char) : Bool :=
  s.isSuffixOf l

/-- The `/upload` route (`visualizer.py` lines 97-119), parameterized by
the two text extractors.  `none` models a request with no `"file"` part. -/
def upload_file (extract_text_from_pdf extract_text_from_docx : List Nat → List Char)
    (file : Option UploadedFile) : UploadResult :=
  match file with
  | none => UploadResult.error "No file provided" 400
  | some f =>
      if f.filename = [] then UploadResult.error "No selected file" 400
      else
        let filename := lowerList f.filename
        if !(endsWithList filename ".pdf".toList || endsWithList filename ".docx".toList) then
          UploadResult.error "Invalid file format. Please upload a PDF or DOCX." 400
        else if endsWithList filename ".pdf".toList then
          UploadResult.ok (extract_text_from_pdf f.content)
        else
          UploadResult.ok (extract_text_from_docx f.content)

/-! ### Helper lemmas about slices and run concatenation -/

theorem concatRuns_nil : concatRuns [] = [] := rfl

theorem concatRuns_cons (r : Run) (rs : List Run) :
    concatRuns (r :: rs) = r.text ++ concatRuns rs := by
  simp [concatRuns]

theorem concatRuns_append (a b : List Run) :
    concatRuns (a ++ b) = concatRuns a ++ concatRuns b := by
  simp [concatRuns]

theorem pySlice_append_drop (t : List Char) {a b : Nat} (h : a ≤ b) :
    pySlice t a b ++ t.drop b = t.drop a := by
  unfold pySlice
  have hb : t.drop b = (t.drop a).drop (b - a) := by
    rw [List.drop_drop]
    congr 1
    omega
  rw [hb, List.take_append_drop]

theorem pySlice_ne_nil {t : List Char} {a b : Nat} (h1 : a < b) (h2 : a < t.length) :
    pySlice t a b ≠ [] := by
  have hlen : 0 < (pySlice t a b).length := by
    unfold pySlice
    rw [List.length_take, List.length_drop]
    omega
  exact List.length_pos.mp hlen

theorem chainFrom_mono {len : Nat} {ents : List EntitySpan} {lo lo' : Nat}
    (h : chainFrom len lo ents = true) (hle : lo' ≤ lo) :
    chainFrom len lo' ents = true := by
  cases ents with
  | nil => rfl
  | cons e rest =>
      simp only [chainFrom, Bool.and_eq_true, decide_eq_true_eq] at h ⊢
      obtain ⟨⟨⟨h1, h2⟩, h3⟩, h4⟩ := h
      exact ⟨⟨⟨by omega, h2⟩, h3⟩, h4⟩

/-! ### Structural lemmas about the export loop -/

theorem saveRunsAux_concat (text : List Char) (selected : List String) :
    ∀ (ents : List EntitySpan) (last_index : Nat),
      chainFrom text.length last_index ents = true →
      concatRuns (saveRunsAux text selected ents last_index) = text.drop last_index := by
  intro ents
  induction ents with
  | nil =>
      intro li _
      unfold saveRunsAux
      by_cases h : li < text.length
      · simp [h, concatRuns, Run.text]
      · simp only [if_neg h, concatRuns_nil]
        exact (List.drop_eq_nil_of_le (by omega)).symm
  | cons e rest ih =>
      intro li hch
      simp only [chainFrom, Bool.and_eq_true, decide_eq_true_eq] at hch
      obtain ⟨⟨⟨h1, h2⟩, h3⟩, h4⟩ := hch
      unfold saveRunsAux
      by_cases hsel : e.label_ ∈ selected
      · rw [if_pos hsel, concatRuns_append, concatRuns_cons]
        rw [ih e.end_char h4]
        simp only [Run.text]
        rw [pySlice_append_drop text (le_of_lt h2)]
        by_cases hgap : e.start_char > li
        · rw [if_pos hgap, concatRuns_cons, concatRuns_nil, Run.text, List.append_nil]
          exact pySlice_append_drop text h1
        · rw [if_neg hgap, concatRuns_nil, List.nil_append]
          have : li = e.start_char := by omega
          rw [this]
      · rw [if_neg hsel]
        exact ih li (chainFrom_mono h4 (by omega))

theorem saveRunsAux_styled_mem (text : List Char) (selected : List String) :
    ∀ (ents : List EntitySpan) (li : Nat) (t : List Char) (l : String),
      Run.styled t l ∈ saveRunsAux text selected ents li → l ∈ selected := by
  intro ents
  induction ents with
  | nil =>
      intro li t l hmem
      unfold saveRunsAux at hmem
      by_cases h : li < text.length
      · rw [if_pos h] at hmem
        simp at hmem
      · rw [if_neg h] at hmem
        simp at hmem
  | cons e rest ih =>
      intro li t l hmem
      unfold saveRunsAux at hmem
      by_cases hsel : e.label_ ∈ selected
      · rw [if_pos hsel] at hmem
        rcases List.mem_append.mp hmem with hg | hs
        · by_cases hgap : e.start_char > li
          · rw [if_pos hgap] at hg
            simp at hg
          · rw [if_neg hgap] at hg
            simp at hg
        · rcases List.mem_cons.mp hs with heq | hrest
          · cases heq
            exact hsel
          · exact ih e.end_char t l hrest
      · rw [if_neg hsel] at hmem
        exact ih li t l hmem

theorem saveRunsAux_no_empty (text : List Char) (selected : List String) :
    ∀ (ents : List EntitySpan) (li : Nat),
      chainFrom text.length li ents = true →
      ∀ r ∈ saveRunsAux text selected ents li, r.text ≠ [] := by
  intro ents
  induction ents with
  | nil =>
      intro li _ r hmem
      unfold saveRunsAux at hmem
      by_cases h : li < text.length
      · rw [if_pos h] at hmem
        rcases List.mem_cons.mp hmem with heq | habs
        · subst heq
          simp only [Run.text]
          apply List.length_pos.mp
          rw [List.length_drop]
          omega
        · simp at habs
      · rw [if_neg h] at hmem
        simp at hmem
  | cons e rest ih =>
      intro li hch r hmem
      simp only [chainFrom, Bool.and_eq_true, decide_eq_true_eq] at hch
      obtain ⟨⟨⟨h1, h2⟩, h3⟩, h4⟩ := hch
      unfold saveRunsAux at hmem
      by_cases hsel : e.label_ ∈ selected
      · rw [if_pos hsel] at hmem
        rcases List.mem_append.mp hmem with hg | hs
        · by_cases hgap : e.start_char > li
          · rw [if_pos hgap] at hg
            rcases List.mem_cons.mp hg with heq | habs
            · subst heq
              simp only [Run.text]
              exact pySlice_ne_nil hgap (by omega)
            · simp at habs
          · rw [if_neg hgap] at hg
            simp at hg
        · rcases List.mem_cons.mp hs with heq | hrest
          · subst heq
            simp only [Run.text]
            exact pySlice_ne_nil h2 (by omega)
          · exact ih e.end_char h4 r hrest
      · rw [if_neg hsel] at hmem
        exact ih li (chainFrom_mono h4 (by omega)) r hmem

/-! ### Lemmas about stripping -/

theorem dropWhile_dropWhile (p : Char → Bool) (l : List Char) :
    (l.dropWhile p).dropWhile p = l.dropWhile p := by
  induction l with
  | nil => rfl
  | cons c rest ih =>
      by_cases h : p c
      · simp [List.dropWhile_cons, h, ih]
      · simp [List.dropWhile_cons, h]

theorem dropWhile_length_le (p : Char → Bool) (l : List Char) :
    (l.dropWhile p).length ≤ l.length := by
  induction l with
  | nil => simp
  | cons c rest ih =>
      rw [List.dropWhile_cons]
      by_cases h : p c
      · rw [if_pos h]
        simp only [List.length_cons]
        omega
      · rw [if_neg h]

theorem dropWhile_eq_self_of_append (p : Char → Bool) (y t : List Char)
    (h : (y ++ t).dropWhile p = y ++ t) : y.dropWhile p = y := by
  cases y with
  | nil => rfl
  | cons c y' =>
      rw [List.cons_append, List.dropWhile_cons] at h
      by_cases hp : p c
      · rw [if_pos hp] at h
        have hle := dropWhile_length_le p (y' ++ t)
        have hlen := congrArg List.length h
        simp only [List.length_cons] at hlen
        omega
      · rw [List.dropWhile_cons, if_neg hp]

theorem pyStrip_dropWhile (l : List Char) :
    (pyStrip l).dropWhile pyIsSpace = pyStrip l := by
  have hx : (l.dropWhile pyIsSpace).dropWhile pyIsSpace = l.dropWhile pyIsSpace :=
    dropWhile_dropWhile pyIsSpace l
  apply dropWhile_eq_self_of_append pyIsSpace (pyStrip l)
    ((l.dropWhile pyIsSpace).reverse.takeWhile pyIsSpace).reverse
  have hsplit :
      pyStrip l ++ ((l.dropWhile pyIsSpace).reverse.takeWhile pyIsSpace).reverse =
        l.dropWhile pyIsSpace := by
    unfold pyStrip
    rw [← List.reverse_append, List.takeWhile_append_dropWhile, List.reverse_reverse]
  rw [hsplit]
  exact hx

theorem pyStrip_reverse_dropWhile (l : List Char) :
    (pyStrip l).reverse.dropWhile pyIsSpace = (pyStrip l).reverse := by
  unfold pyStrip
  rw [List.reverse_reverse]
  exact dropWhile_dropWhile pyIsSpace (l.dropWhile pyIsSpace).reverse

theorem pyStrip_idem (l : List Char) : pyStrip (pyStrip l) = pyStrip l := by
  have h1 := pyStrip_dropWhile l
  have h2 := pyStrip_reverse_dropWhile l
  show (((pyStrip l).dropWhile pyIsSpace).reverse.dropWhile pyIsSpace).reverse = pyStrip l
  rw [h1, h2, List.reverse_reverse]

theorem pyStrip_eq_nil (l : List Char) (h : ∀ c ∈ l, pyIsSpace c = true) :
    pyStrip l = [] := by
  unfold pyStrip
  have h1 : l.dropWhile pyIsSpace = [] := by
    rw [List.dropWhile_eq_nil_iff]
    intro c hc
    exact h c hc
  rw [h1]
  rfl

/-! ### Lemmas about the label counter -/

theorem sumValues_bump (acc : List (String × Nat)) (l : String) :
    sumValues (bump acc l) = sumValues acc + 1 := by
  induction acc with
  | nil => rfl
  | cons p rest ih =>
      obtain ⟨k, n⟩ := p
      unfold bump
      by_cases h : k = l
      · rw [if_pos h]
        simp only [sumValues, List.map_cons, List.sum_cons]
        omega
      · rw [if_neg h]
        simp only [sumValues, List.map_cons, List.sum_cons] at ih ⊢
        omega

theorem mem_keys_bump (acc : List (String × Nat)) (l k : String) :
    k ∈ (bump acc l).map Prod.fst ↔ k ∈ acc.map Prod.fst ∨ k = l := by
  induction acc with
  | nil => simp [bump]
  | cons p rest ih =>
      obtain ⟨k', n'⟩ := p
      unfold bump
      by_cases h : k' = l
      · rw [if_pos h]
        subst h
        simp only [List.map_cons, List.mem_cons]
        tauto
      · rw [if_neg h]
        simp only [List.map_cons, List.mem_cons] at ih ⊢
        tauto

theorem sumValues_foldl (ls : List String) :
    ∀ acc, sumValues (ls.foldl bump acc) = sumValues acc + ls.length := by
  induction ls with
  | nil =>
      intro acc
      simp
  | cons l rest ih =>
      intro acc
      simp only [List.foldl_cons, List.length_cons]
      rw [ih, sumValues_bump]
      omega

theorem mem_keys_foldl (ls : List String) (k : String) :
    ∀ acc, k ∈ (ls.foldl bump acc).map Prod.fst ↔ k ∈ acc.map Prod.fst ∨ k ∈ ls := by
  induction ls with
  | nil =>
      intro acc
      simp
  | cons l rest ih =>
      intro acc
      simp only [List.foldl_cons, List.mem_cons]
      rw [ih, mem_keys_bump]
      tauto

/-! ### Sample inputs used by the witnesses -/

/-- Scenario text: `"Dracula was written by Bram Stoker."` (35 characters). -/
def sampleText : List Char := "Dracula was written by Bram Stoker.".toList

/-- Scenario entities: `(0, 7, CHARACTER)` and `(23, 34, PERSON)`. -/
def sampleEnts : List EntitySpan :=
  [⟨0, 7, "CHARACTER", 1⟩, ⟨23, 34, "PERSON", 2⟩]

/-- A trivial recognition pipeline used in witnesses. -/
def nlpConst : List Char → SpacyDoc := fun _ => ⟨[], 0, []⟩

/-- A document with three entities, 12 tokens and two sentences of lengths
5 and 7 (Scenario D). -/
def sampleDoc : SpacyDoc :=
  { ents := [⟨0, 3, "ORG", 1⟩, ⟨3, 6, "ORG", 1⟩, ⟨10, 13, "PLACE", 1⟩]
    numTokens := 12
    sentLens := [5, 7] }

/-! ### The claims -/

/-- C1 (lossless partition): for every source text, any in-bounds, sorted,
non-overlapping entity span list, and any selected label set, the
concatenation of the texts of all runs emitted by the export segmentation
of `save_results` — gap runs, styled entity runs, and the final remainder
run — equals the source text exactly. -/
theorem save_lossless_partition (text : List Char) (selected : List String)
    (ents : List EntitySpan) (h : chainFrom text.length 0 ents = true) :
    concatRuns (saveRuns text selected ents) = text := by
  have hmain := saveRunsAux_concat text selected ents 0 h
  simpa [saveRuns] using hmain

theorem save_lossless_partition_witness :
    chainFrom sampleText.length 0 sampleEnts = true ∧
      concatRuns (saveRuns sampleText ["PERSON"] sampleEnts) = sampleText :=
  ⟨by decide, save_lossless_partition sampleText ["PERSON"] sampleEnts (by decide)⟩

/-- C2 (filter correctness): every styled (bold, colored) run emitted by
the segmentation of `save_results` carries the label of an entity that is
a member of the selected label set; an entity whose label is outside the
selected set is never emitted as a styled run. -/
theorem styled_runs_filter_correct (text : List Char) (selected : List String)
    (ents : List EntitySpan) (t : List Char) (l : String)
    (h : Run.styled t l ∈ saveRuns text selected ents) : l ∈ selected :=
  saveRunsAux_styled_mem text selected ents 0 t l h

theorem styled_runs_filter_correct_witness : ("PERSON" : String) ∈ ["PERSON"] :=
  styled_runs_filter_correct sampleText ["PERSON"] sampleEnts
    (pySlice sampleText 23 34) "PERSON" (by decide)

/-- C3 (no empty segments): when every span satisfies
`0 ≤ start_char < end_char ≤ len(text)` and the spans are sorted and
non-overlapping, no run emitted by the segmentation of `save_results` has
zero-length text — in particular no empty unstyled run before a span
starting at offset 0 or after a span ending at `len(text)`. -/
theorem no_empty_runs (text : List Char) (selected : List String)
    (ents : List EntitySpan) (h : chainFrom text.length 0 ents = true) :
    ∀ r ∈ saveRuns text selected ents, r.text ≠ [] :=
  saveRunsAux_no_empty text selected ents 0 h

theorem no_empty_runs_witness :
    (Run.plain (sampleText.drop 34)).text ≠ [] :=
  no_empty_runs sampleText ["PERSON"] sampleEnts (by decide)
    (Run.plain (sampleText.drop 34)) (by decide)

/-- C4 (density zero-guard): `entity_density` equals
`entity_count / token_count` (exact rational division) when
`token_count > 0`, and equals exactly `0` when `token_count = 0`; the
computation is total, so no division error can be raised. -/
theorem entity_density_zero_guard (doc : SpacyDoc) :
    ((statsOf doc).token_count = 0 → (statsOf doc).entity_density = 0) ∧
      (0 < (statsOf doc).token_count →
        (statsOf doc).entity_density * ((statsOf doc).token_count : ℚ) =
          ((statsOf doc).entity_count : ℚ)) := by
  simp only [statsOf]
  constructor
  · intro h
    simp [h]
  · intro h
    rw [if_pos h, div_mul_cancel₀]
    exact Nat.cast_ne_zero.mpr (by omega)

theorem entity_density_zero_guard_witness :
    0 < (statsOf sampleDoc).token_count ∧
      (statsOf sampleDoc).entity_density * ((statsOf sampleDoc).token_count : ℚ) =
        ((statsOf sampleDoc).entity_count : ℚ) :=
  ⟨by decide, (entity_density_zero_guard sampleDoc).2 (by decide)⟩

/-- C5 (average zero-guard): `avg_sentence_length` equals the arithmetic
mean of the `sentence_lengths` list when that list is non-empty (exact
rational division: the average times the number of sentences equals the
sum of the lengths), and equals exactly `0` when there are no sentences;
the computation is total, so no division error can be raised. -/
theorem avg_sentence_length_zero_guard (doc : SpacyDoc) :
    ((statsOf doc).sentence_lengths = [] → (statsOf doc).avg_sentence_length = 0) ∧
      ((statsOf doc).sentence_lengths ≠ [] →
        (statsOf doc).avg_sentence_length *
            ((statsOf doc).sentence_lengths.length : ℚ) =
          ((statsOf doc).sentence_lengths.sum : ℚ)) := by
  simp only [statsOf]
  constructor
  · intro h
    simp [h]
  · intro h
    rw [if_neg (by simpa [List.isEmpty_iff] using h), div_mul_cancel₀]
    have : doc.sentLens.length ≠ 0 := by
      simpa [List.length_eq_zero] using h
    exact Nat.cast_ne_zero.mpr this

theorem avg_sentence_length_zero_guard_witness :
    (statsOf sampleDoc).sentence_lengths ≠ [] ∧
      (statsOf sampleDoc).avg_sentence_length *
          ((statsOf sampleDoc).sentence_lengths.length : ℚ) =
        ((statsOf sampleDoc).sentence_lengths.sum : ℚ) :=
  ⟨by decide, (avg_sentence_length_zero_guard sampleDoc).2 (by decide)⟩

/-- C6 (distribution completeness): the sum of all counts in
`entity_distribution` equals `entity_count`, and a label occurs as a key
of `entity_distribution` if and only if at least one entity carries that
label — labels with zero occurrences are absent, not zero-filled. -/
theorem entity_distribution_complete (doc : SpacyDoc) :
    sumValues (statsOf doc).entity_distribution = (statsOf doc).entity_count ∧
      ∀ l : String, l ∈ (statsOf doc).entity_distribution.map Prod.fst ↔
        ∃ e ∈ doc.ents, e.label_ = l := by
  constructor
  · simp only [statsOf, counter]
    rw [sumValues_foldl]
    simp [sumValues]
  · intro l
    simp only [statsOf, counter]
    rw [mem_keys_foldl]
    simp [List.mem_map]

theorem entity_distribution_complete_witness :
    sumValues (statsOf sampleDoc).entity_distribution = (statsOf sampleDoc).entity_count ∧
      ("ORG" : String) ∈ (statsOf sampleDoc).entity_distribution.map Prod.fst :=
  ⟨(entity_distribution_complete sampleDoc).1,
    ((entity_distribution_complete sampleDoc).2 "ORG").mpr
      ⟨⟨0, 3, "ORG", 1⟩, by decide, rfl⟩⟩

/-- C7 (empty-input rejection): a `/save` or `/stats` request whose text
is empty is answered with the error object and status 400 — no success
flag, no `file_path`, no report fields — the recognition pipeline is not
invoked (the response is the same for every pipeline), and no document is
written (the error response carries no run sequence). -/
theorem empty_input_rejected (nlp nlp' : List Char → SpacyDoc)
    (selected : List String) (text : List Char) (h : text = []) :
    save_results nlp text selected = SaveResult.error "No content to save" 400 ∧
      stats nlp text = StatsResult.error "No text provided" 400 ∧
      save_results nlp text selected = save_results nlp' text selected ∧
      stats nlp text = stats nlp' text := by
  subst h
  exact ⟨rfl, rfl, rfl, rfl⟩

theorem empty_input_rejected_witness :
    save_results nlpConst [] [] = SaveResult.error "No content to save" 400 ∧
      stats nlpConst [] = StatsResult.error "No text provided" 400 :=
  ⟨(empty_input_rejected nlpConst nlpConst [] [] rfl).1,
    (empty_input_rejected nlpConst nlpConst [] [] rfl).2.1⟩

/-- C8 (unsupported-format rejection): when an uploaded file's lowercased
filename ends neither in `".pdf"` nor in `".docx"`, `/upload` answers with
an error and client-error status 400, and neither text-extraction function
is invoked (the response is the same for every pair of extractors). -/
theorem unsupported_format_rejected
    (ep ed ep' ed' : List Nat → List Char) (f : UploadedFile)
    (h1 : endsWithList (lowerList f.filename) ".pdf".toList = false)
    (h2 : endsWithList (lowerList f.filename) ".docx".toList = false) :
    (∃ msg, upload_file ep ed (some f) = UploadResult.error msg 400) ∧
      upload_file ep ed (some f) = upload_file ep' ed' (some f) := by
  have h1' : endsWithList (lowerList f.filename) ['.', 'p', 'd', 'f'] = false := by
    simpa using h1
  have h2' : endsWithList (lowerList f.filename) ['.', 'd', 'o', 'c', 'x'] = false := by
    simpa using h2
  constructor
  · by_cases hf : f.filename = []
    · exact ⟨"No selected file", by simp [upload_file, hf]⟩
    · refine ⟨"Invalid file format. Please upload a PDF or DOCX.", ?_⟩
      simp [upload_file, hf, h1', h2']
  · by_cases hf : f.filename = []
    · simp [upload_file, hf]
    · simp [upload_file, hf, h1', h2']

theorem unsupported_format_rejected_witness :
    (∃ msg,
        upload_file (fun _ => []) (fun _ => ['a'])
            (some ⟨"report.txt".toList, [1, 2]⟩) =
          UploadResult.error msg 400) ∧
      upload_file (fun _ => []) (fun _ => ['a'])
          (some ⟨"report.txt".toList, [1, 2]⟩) =
        upload_file (fun _ => ['b']) (fun _ => [])
          (some ⟨"report.txt".toList, [1, 2]⟩) :=
  unsupported_format_rejected (fun _ => []) (fun _ => ['a']) (fun _ => ['b'])
    (fun _ => []) ⟨"report.txt".toList, [1, 2]⟩ (by decide) (by decide)

/-- C9 (fixed export target): every successful `/save` response carries
`file_path = "Results.docx"`, the constant path to which the exported
document is written; the document written is exactly the export run
sequence of the processed stripped text — the operation produces no other
artifact. -/
theorem save_fixed_export_target (nlp : List Char → SpacyDoc) (text : List Char)
    (selected : List String) (runs : List Run) (fp : String)
    (h : save_results nlp text selected = SaveResult.ok runs fp) :
    fp = "Results.docx" ∧
      runs = saveRuns (pyStrip text) selected (nlp (pyStrip text)).ents := by
  simp only [save_results] at h
  split at h
  · exact absurd h (by simp)
  · injection h with hruns hfp
    exact ⟨hfp.symm, hruns.symm⟩

theorem save_fixed_export_target_witness :
    ("Results.docx" : String) = "Results.docx" ∧
      [Run.plain ['a']] = saveRuns (pyStrip ['a']) [] (nlpConst (pyStrip ['a'])).ents :=
  save_fixed_export_target nlpConst ['a'] [] [Run.plain ['a']] "Results.docx" (by decide)

/-- C10 (input stripping): the text actually processed by `/filter`,
`/save` and `/stats` is the submitted text with leading and trailing
whitespace removed (each route behaves on the raw text exactly as on the
stripped text); consequently a whitespace-only text is rejected with the
same errors as empty text by `/save` and `/stats`, and the
lossless-partition concatenation of a successful save reproduces the
stripped text rather than the raw submission. -/
theorem routes_strip_input (nlp : List Char → SpacyDoc) (text : List Char)
    (selected : List String) :
    filter_entities nlp text selected = filter_entities nlp (pyStrip text) selected ∧
      save_results nlp text selected = save_results nlp (pyStrip text) selected ∧
      stats nlp text = stats nlp (pyStrip text) ∧
      ((∀ c ∈ text, pyIsSpace c = true) →
        save_results nlp text selected = SaveResult.error "No content to save" 400 ∧
          stats nlp text = StatsResult.error "No text provided" 400) ∧
      ∀ runs fp, save_results nlp text selected = SaveResult.ok runs fp →
        chainFrom (pyStrip text).length 0 (nlp (pyStrip text)).ents = true →
        concatRuns runs = pyStrip text := by
  refine ⟨?_, ?_, ?_, ?_, ?_⟩
  · simp [filter_entities, pyStrip_idem]
  · simp [save_results, pyStrip_idem]
  · simp [stats, pyStrip_idem]
  · intro h
    have hnil := pyStrip_eq_nil text h
    constructor
    · simp [save_results, hnil]
    · simp [stats, hnil]
  · intro runs fp h hch
    simp only [save_results] at h
    split at h
    · exact absurd h (by simp)
    · injection h with hruns hfp
      rw [← hruns]
      have hmain := saveRunsAux_concat (pyStrip text) selected (nlp (pyStrip text)).ents 0 hch
      simpa [saveRuns] using hmain

theorem routes_strip_input_witness :
    save_results nlpConst [' ', '\t'] [] = SaveResult.error "No content to save" 400 ∧
      stats nlpConst [' ', '\t'] = StatsResult.error "No text provided" 400 :=
  (routes_strip_input nlpConst [' ', '\t'] []).2.2.2.1 (by decide)
